import Mathlib

/-!
Shallow embedding of the timing/scheduling core of the `loom` sequencing
engine (Rust), together with theorems checking the natural-language
specification against it.

Conventions of the embedding:
* `u64` values are represented as `Nat`; where the Rust code can wrap
  (plain `+` in release builds) we reduce modulo `2 ^ 64` explicitly.
* `f64` arithmetic is represented exactly by `ℚ`.  The spec's claims are
  about exact values up to "a few ticks of rounding", so an exact-rational
  model decides them: an equality that holds in `ℚ` holds for `f64` up to
  float rounding, and the refutations below miss by amounts (thousands of
  ticks) far beyond any float rounding.
* Rust's `BTreeMap` is represented as an association list sorted strictly
  by key; `HashMap` as an association list with distinct keys in insertion
  order.
* A Rust `panic!` (including the `BTreeMap::range` bounds panic) is
  represented by `Option.none` in the result type of the function that can
  panic.
-/

namespace Loom

/-- Modulus of `u64` arithmetic. -/
def U64MOD : Nat := 2 ^ 64

/-- Rust `f64::round`: round half away from zero. -/
def rustRound (q : ℚ) : ℤ :=
  if 0 ≤ q then ⌊q + 1 / 2⌋ else ⌈q - 1 / 2⌉

/-- Rust `as u64` applied to an `f64`: truncation with saturation at the
ends of the `u64` range (we only apply it to already-rounded values, as the
source does with `.round() as u64`). -/
def ratRoundToU64 (q : ℚ) : Nat :=
  let r := rustRound q
  if r < 0 then 0 else min r.toNat (U64MOD - 1)

/-- Rust `as u8` applied to an `f64`: truncate toward zero, saturating into
`[0, 255]`. -/
def ratAsU8 (q : ℚ) : Nat :=
  if q < 0 then 0 else min (Int.toNat ⌊q⌋) 255

/-- `src/tapestry/tempo.rs`: `Tempo { bpm: f64 }`. -/
structure Tempo where
  bpm : ℚ
deriving DecidableEq, Repr

/-- `Tempo::beat_duration_secs`: `60.0 / self.bpm`. -/
def Tempo.beat_duration_secs (t : Tempo) : ℚ := 60 / t.bpm

/-- `src/tapestry/tempo.rs`: `TimeSignature { numerator, denominator: u8 }`. -/
structure TimeSignature where
  numerator : Nat
  denominator : Nat
deriving DecidableEq, Repr

/-- `TimeSignature::beats_per_bar`: `self.numerator as f64`. -/
def TimeSignature.beats_per_bar (s : TimeSignature) : ℚ := s.numerator

/-- `src/tapestry/position.rs`: `TimePosition { position_ticks: u64 }`.
Where a `TimePosition` is only used as an ordered map key we represent it
directly by its `position_ticks` value (order, equality and hashing in the
source are all by tick value). -/
structure TimePosition where
  position_ticks : Nat
deriving DecidableEq, Repr

/-- `impl Add for TimePosition`: plain `u64 +`, which wraps modulo `2 ^ 64`
in release builds. -/
def TimePosition.add (a b : TimePosition) : TimePosition :=
  ⟨(a.position_ticks + b.position_ticks) % U64MOD⟩

/-- `impl Sub for TimePosition`: `u64::saturating_sub`, which is exactly
truncated `Nat` subtraction. -/
def TimePosition.sub (a b : TimePosition) : TimePosition :=
  ⟨a.position_ticks - b.position_ticks⟩

/-- `BTreeMap::insert` on the sorted-association-list model: replaces the
value at an existing key, otherwise inserts keeping keys sorted. -/
def btreeInsert {α : Type} (k : Nat) (v : α) : List (Nat × α) → List (Nat × α)
  | [] => [(k, v)]
  | (k2, v2) :: rest =>
      if k < k2 then (k, v) :: (k2, v2) :: rest
      else if k = k2 then (k, v) :: rest
      else (k2, v2) :: btreeInsert k v rest

/-- `BTreeMap::remove` on the sorted-association-list model. -/
def btreeRemove {α : Type} (k : Nat) (l : List (Nat × α)) : List (Nat × α) :=
  l.filter (fun e => e.1 ≠ k)

/-- `src/tapestry/tempo_map.rs`: `TempoMap`.  The two change maps are
`BTreeMap`s keyed by `TimePosition` (represented by its tick count). -/
structure TempoMap where
  reference_sample_rate : Nat
  playback_sample_rate : Nat
  tempo_changes : List (Nat × Tempo)
  time_signature_changes : List (Nat × TimeSignature)
deriving DecidableEq, Repr

namespace TempoMap

/-- `TempoMap::new`: default 120 BPM and 4/4 at position zero. -/
def new (reference_sample_rate playback_sample_rate : Nat) : TempoMap :=
  { reference_sample_rate := reference_sample_rate
    playback_sample_rate := playback_sample_rate
    tempo_changes := [(0, ⟨120⟩)]
    time_signature_changes := [(0, ⟨4, 4⟩)] }

/-- `TempoMap::add_tempo_change`. -/
def add_tempo_change (m : TempoMap) (position : Nat) (tempo : Tempo) : TempoMap :=
  { m with tempo_changes := btreeInsert position tempo m.tempo_changes }

/-- `TempoMap::add_time_signature_change`. -/
def add_time_signature_change (m : TempoMap) (position : Nat) (s : TimeSignature) :
    TempoMap :=
  { m with time_signature_changes := btreeInsert position s m.time_signature_changes }

/-- `TempoMap::tempo_at`: last change at or before `position`
(`range(..=position).next_back()`).  The source `panic!`s when the map is
empty; that branch is unreachable for maps built by `new` (which always
has an entry at zero), and is given the default tempo here. -/
def tempo_at (m : TempoMap) (position : Nat) : Tempo :=
  match (m.tempo_changes.filter (fun e => decide (e.1 ≤ position))).getLast? with
  | some e => e.2
  | none => ⟨120⟩

/-- One step of the segment loop of `TempoMap::position_to_beats`: state is
`(result, last_position, last_tempo)`. -/
def p2bStep (rate : Nat) (st : ℚ × Nat × Tempo) (e : Nat × Tempo) : ℚ × Nat × Tempo :=
  if st.2.1 < e.1 then
    (st.1 + (((e.1 - st.2.1 : Nat) : ℚ) / (rate : ℚ)) / st.2.2.beat_duration_secs,
      e.1, e.2)
  else st

/-- `TempoMap::position_to_beats`: integrates beats piecewise over the
tempo changes in `range(zero..=position)`, then adds the partial final
segment. -/
def position_to_beats (m : TempoMap) (position : Nat) : ℚ :=
  let entries := m.tempo_changes.filter (fun e => decide (e.1 ≤ position))
  let fin := entries.foldl (p2bStep m.reference_sample_rate) (0, 0, m.tempo_at 0)
  if fin.2.1 < position then
    fin.1 + (((position - fin.2.1 : Nat) : ℚ) / (m.reference_sample_rate : ℚ)) /
      fin.2.2.beat_duration_secs
  else fin.1

/-- The for-loop of `TempoMap::beats_to_position`, with its early `break`:
state is `(remaining_beats, current_position, current_tempo)`.  Note the
loop compares `remaining_beats` against `position_to_beats(change_position)`
— the *cumulative* beat count at the change — and subtracts that cumulative
count, exactly as the source does. -/
def b2pLoop (m : TempoMap) : List (Nat × Tempo) → ℚ × Nat × Tempo → ℚ × Nat × Tempo
  | [], st => st
  | (cp, nt) :: rest, st =>
      let current_beats := m.position_to_beats cp
      if st.1 ≤ current_beats then st
      else b2pLoop m rest (st.1 - current_beats, cp, nt)

/-- `TempoMap::beats_to_position`: skips the zero entry, walks the change
list with `b2pLoop`, then adds `round(residual_beats × seconds_per_beat ×
reference_rate)` ticks. -/
def beats_to_position (m : TempoMap) (beats : ℚ) : Nat :=
  let fin := b2pLoop m (m.tempo_changes.drop 1) (beats, 0, m.tempo_at 0)
  let segment_duration_secs := fin.1 * fin.2.2.beat_duration_secs
  let additional_ticks :=
    ratRoundToU64 (segment_duration_secs * (m.reference_sample_rate : ℚ))
  (fin.2.1 + additional_ticks) % U64MOD

end TempoMap

/-- `HashMap::insert` on the association-list model: replaces the value at
an existing key, otherwise appends. -/
def hashInsert {α : Type} (k : Nat) (v : α) : List (Nat × α) → List (Nat × α)
  | [] => [(k, v)]
  | (k2, v2) :: rest =>
      if k = k2 then (k, v) :: rest else (k2, v2) :: hashInsert k v rest

/-- `HashMap::get` on the association-list model. -/
def hashGet {α : Type} (k : Nat) : List (Nat × α) → Option α
  | [] => none
  | (k2, v2) :: rest => if k = k2 then some v2 else hashGet k rest

/-- `src/model/track.rs`: `TrackType`. -/
inductive TrackType
  | midi
  | audio
  | instrument
  | automation
deriving DecidableEq, Repr

/-- `src/model/track.rs`: `Track` (identifiers are represented by `Nat`;
the display color is an RGB triple). -/
structure Track where
  id : Nat
  name : String
  track_type : TrackType
  output_id : Option Nat
  color : Nat × Nat × Nat
  is_muted : Bool
  is_solo : Bool
  height : Nat
deriving DecidableEq, Repr

/-- `src/model/container.rs`: `PlaybackMode`. -/
inductive PlaybackMode
  | normal
  | loopMode
  | oneShot
  | pingPong
deriving DecidableEq, Repr

/-- `src/model/container.rs`: `MediaContent` (content ids are opaque,
resolved externally; represented by `Nat`). -/
inductive MediaContent
  | pattern (id : Nat)
  | midiClip (id : Nat)
  | audioFile (id : Nat)
deriving DecidableEq, Repr

/-- `src/model/container.rs`: `MediaContainer`.  `position` and `length`
are tick counts; `time_scale` is the `f64` factor, represented exactly. -/
structure MediaContainer where
  id : Nat
  position : Nat
  length : Nat
  playback_mode : PlaybackMode
  loop_count : Option Nat
  start_offset : Nat
  end_offset : Nat
  time_scale : ℚ
  content : MediaContent
deriving DecidableEq, Repr

/-- `src/model/timeline.rs`: `Timeline`.  `containers` models the
`HashMap<ContainerId, MediaContainer>`; `track_containers` models the
`HashMap<TrackId, BTreeMap<TimePosition, ContainerId>>` (inner lists are
sorted by position key). -/
structure Timeline where
  name : String
  tracks : List Track
  containers : List (Nat × MediaContainer)
  track_containers : List (Nat × List (Nat × Nat))
deriving DecidableEq, Repr

namespace Timeline

/-- `Timeline::new`. -/
def new (name : String) : Timeline :=
  { name := name, tracks := [], containers := [], track_containers := [] }

/-- `Timeline::add_track`: pushes the track and gives it an empty
container index. -/
def add_track (tl : Timeline) (t : Track) : Timeline :=
  { tl with
    tracks := tl.tracks ++ [t]
    track_containers := hashInsert t.id [] tl.track_containers }

/-- `Timeline::add_container`: stores the container by id, then inserts
`position ↦ id` into the track's index — only if the track exists (the
source's `if let Some(track_map)`). -/
def add_container (tl : Timeline) (track_id : Nat) (c : MediaContainer) : Timeline :=
  let containers := hashInsert c.id c tl.containers
  let track_containers :=
    match hashGet track_id tl.track_containers with
    | some track_map =>
        hashInsert track_id (btreeInsert c.position c.id track_map) tl.track_containers
    | none => tl.track_containers
  { tl with containers := containers, track_containers := track_containers }

/-- The linear scan at the top of `Timeline::move_container`: first track
whose index holds the container id, with the index key found. -/
def findContainerEntry (id : Nat) : List (Nat × List (Nat × Nat)) → Option (Nat × Nat)
  | [] => none
  | (tid, m) :: rest =>
      match m.find? (fun e => decide (e.2 = id)) with
      | some e => some (tid, e.1)
      | none => findContainerEntry id rest

/-- `Timeline::move_container`: locate the container's track and old key
by linear scan, update the container's stored position, then remove the
old key and reinsert at the new one.  Returns the updated timeline and the
source's `bool` result.  Mirrors the source's control flow, including the
branch that has already updated the container when the track map lookup
runs. -/
def move_container (tl : Timeline) (id : Nat) (new_position : Nat) : Timeline × Bool :=
  match findContainerEntry id tl.track_containers with
  | none => (tl, false)
  | some (tid, old_pos) =>
      match hashGet id tl.containers with
      | none => (tl, false)
      | some c =>
          let tl2 := { tl with
            containers := hashInsert id { c with position := new_position } tl.containers }
          match hashGet tid tl2.track_containers with
          | some track_map =>
              let track_map2 := btreeInsert new_position id (btreeRemove old_pos track_map)
              ({ tl2 with track_containers := hashInsert tid track_map2 tl2.track_containers },
                true)
          | none => (tl2, false)

/-- The computed end of a container, `container.position + container.length`
(`u64` addition, so reduced modulo `2 ^ 64`). -/
def containerEnd (c : MediaContainer) : Nat :=
  (c.position + c.length) % U64MOD

/-- `Timeline::track_containers_in_range`.  `none` models the panic of
`BTreeMap::range(start..end)` with inverted bounds; that call is only
reached when the track exists.  Otherwise: containers whose index key lies
in `[start, end)`, then containers with key before `start` whose computed
end exceeds `start`. -/
def track_containers_in_range (tl : Timeline) (track_id : Nat) (start fin : Nat) :
    Option (List MediaContainer) :=
  match hashGet track_id tl.track_containers with
  | none => some []
  | some track_map =>
      if fin < start then none
      else
        let part1 := (track_map.filter (fun e => decide (start ≤ e.1 ∧ e.1 < fin))).filterMap
          (fun e => hashGet e.2 tl.containers)
        let part2 := (track_map.filter (fun e => decide (e.1 < start))).filterMap
          (fun e =>
            match hashGet e.2 tl.containers with
            | some c => if start < containerEnd c then some c else none
            | none => none)
        some (part1 ++ part2)

/-- `Timeline::containers_in_range`: union over all tracks, in registry
order; propagates a panic from any per-track query. -/
def containers_in_range (tl : Timeline) (start fin : Nat) :
    Option (List MediaContainer) :=
  tl.track_containers.foldl
    (fun acc e => do
      let r ← acc
      let r2 ← tl.track_containers_in_range e.1 start fin
      pure (r ++ r2))
    (some [])

end Timeline

/-- `src/output/event.rs`: `OutputEventType`.  `f32` payloads are
represented exactly by `ℚ`. -/
inductive OutputEventType
  | midiNoteOn (channel note velocity : Nat)
  | midiNoteOff (channel note : Nat)
  | midiControlChange (channel controller value : Nat)
  | midiProgramChange (channel program : Nat)
  | midiPitchBend (channel : Nat) (value : ℤ)
  | midiAftertouch (channel pressure : Nat)
  | midiPolyAftertouch (channel note pressure : Nat)
  | audioBuffer (data : List ℚ) (channels : Nat) (frames : Nat)
  | vstParameter (parameter_id : Nat) (value : ℚ)
  | syncPulse
  | endOfTrack
deriving DecidableEq, Repr

/-- `src/output/event.rs`: `OutputEvent` — an event type plus optional
specific target endpoint. -/
structure OutputEvent where
  event_type : OutputEventType
  target : Option Nat
deriving DecidableEq, Repr

namespace OutputEvent

/-- `OutputEvent::midi_note_on`. -/
def midi_note_on (channel note velocity : Nat) (target : Option Nat) : OutputEvent :=
  ⟨.midiNoteOn channel note velocity, target⟩

/-- `OutputEvent::midi_note_off`. -/
def midi_note_off (channel note : Nat) (target : Option Nat) : OutputEvent :=
  ⟨.midiNoteOff channel note, target⟩

/-- `OutputEvent::midi_cc`. -/
def midi_cc (channel controller value : Nat) (target : Option Nat) : OutputEvent :=
  ⟨.midiControlChange channel controller value, target⟩

/-- `OutputEvent::is_midi`. -/
def is_midi_type : OutputEventType → Bool
  | .midiNoteOn _ _ _ => true
  | .midiNoteOff _ _ => true
  | .midiControlChange _ _ _ => true
  | .midiProgramChange _ _ => true
  | .midiPitchBend _ _ => true
  | .midiAftertouch _ _ => true
  | .midiPolyAftertouch _ _ _ => true
  | _ => false

/-- `OutputEvent::is_audio`. -/
def is_audio_type : OutputEventType → Bool
  | .audioBuffer _ _ _ => true
  | _ => false

end OutputEvent

/-- `src/engine/scheduler.rs`: `EventScheduler` — a `BTreeMap` from
position to the events scheduled there, modelled as a sorted association
list. -/
structure EventScheduler where
  scheduled_events : List (Nat × List OutputEvent)
deriving DecidableEq, Repr

namespace EventScheduler

/-- `EventScheduler::new`. -/
def new : EventScheduler := ⟨[]⟩

/-- Push onto the entry at a key, inserting an empty entry first when the
key is absent (`entry(position).or_insert_with(Vec::new).push(event)`). -/
def entryPush (k : Nat) (ev : OutputEvent) : List (Nat × List OutputEvent) →
    List (Nat × List OutputEvent)
  | [] => [(k, [ev])]
  | (k2, evs) :: rest =>
      if k < k2 then (k, [ev]) :: (k2, evs) :: rest
      else if k = k2 then (k, evs ++ [ev]) :: rest
      else (k2, evs) :: entryPush k ev rest

/-- `EventScheduler::schedule_event`. -/
def schedule_event (s : EventScheduler) (position : Nat) (ev : OutputEvent) :
    EventScheduler :=
  ⟨entryPush position ev s.scheduled_events⟩

/-- `EventScheduler::get_events`: all events with position in
`[start, end)`, flattened with their position, in position order.  `none`
models the panic of `BTreeMap::range(start..end)` on inverted bounds. -/
def get_events (s : EventScheduler) (start fin : Nat) :
    Option (List (Nat × OutputEvent)) :=
  if fin < start then none
  else
    some ((s.scheduled_events.filter (fun e => decide (start ≤ e.1 ∧ e.1 < fin))).foldl
      (fun acc e => acc ++ e.2.map (fun ev => (e.1, ev))) [])

/-- `EventScheduler::clear`. -/
def clear (_ : EventScheduler) : EventScheduler := ⟨[]⟩

end EventScheduler

/-- `src/model/endpoint.rs`: `EndpointType`. -/
inductive EndpointType
  | midi
  | audio
  | vst
deriving DecidableEq, Repr

/-- `src/output/midi.rs`: the state of a `MidiOutputEndpoint`.  The live
`MidiOutputConnection` is represented by the `connected` flag; bytes
written to it are returned by `send_event` below. -/
structure MidiOutputEndpoint where
  id : Nat
  name : String
  port_name : String
  port_index : Nat
  connected : Bool
deriving DecidableEq, Repr

namespace MidiOutputEndpoint

/-- The byte message built by each arm of
`MidiOutputEndpoint::send_event`; `none` for the `_ => Err("Unsupported
event type for MIDI endpoint")` arm.  The pitch-bend arm computes
`(value + 8192) as u16` (two's-complement cast; exact for the documented
`-8192..=8191` range, where no `i16` overflow occurs). -/
def encodeMessage : OutputEventType → Option (List Nat)
  | .midiNoteOn channel note velocity =>
      some [Nat.lor 0x90 (Nat.land channel 0x0F), note, velocity]
  | .midiNoteOff channel note =>
      some [Nat.lor 0x80 (Nat.land channel 0x0F), note, 0]
  | .midiControlChange channel controller value =>
      some [Nat.lor 0xB0 (Nat.land channel 0x0F), controller, value]
  | .midiProgramChange channel program =>
      some [Nat.lor 0xC0 (Nat.land channel 0x0F), program]
  | .midiPitchBend channel value =>
      let bend := ((value + 8192).emod 65536).toNat
      some [Nat.lor 0xE0 (Nat.land channel 0x0F), Nat.land bend 0x7F,
        Nat.land (Nat.shiftRight bend 7) 0x7F]
  | .midiAftertouch channel pressure =>
      some [Nat.lor 0xD0 (Nat.land channel 0x0F), pressure]
  | .midiPolyAftertouch channel note pressure =>
      some [Nat.lor 0xA0 (Nat.land channel 0x0F), note, pressure]
  | _ => none

/-- `MidiOutputEndpoint::send_event` composed with `send_midi_message`:
the `Except.ok` value carries the bytes written to the connection;
disconnected endpoints and non-MIDI events produce the source's error
strings. -/
def send_event (ep : MidiOutputEndpoint) (ev : OutputEvent) : Except String (List Nat) :=
  match encodeMessage ev.event_type with
  | some message =>
      if ep.connected then .ok message else .error "MIDI device not connected"
  | none => .error "Unsupported event type for MIDI endpoint"

/-- `MidiOutputEndpoint::endpoint_type`. -/
def endpoint_type (_ : MidiOutputEndpoint) : EndpointType := .midi

end MidiOutputEndpoint

/-- The registry's `Box<dyn OutputEndpoint>`.  The source has exactly one
concrete implementation (`MidiOutputEndpoint`; `add_endpoint` constructs
no other), so the trait object is a closed sum with one constructor. -/
inductive OutputEndpointImpl
  | midi (ep : MidiOutputEndpoint)
deriving DecidableEq, Repr

namespace OutputEndpointImpl

/-- Dynamic dispatch of `endpoint_type()`. -/
def endpoint_type : OutputEndpointImpl → EndpointType
  | .midi ep => ep.endpoint_type

/-- Dynamic dispatch of `send_event()`. -/
def send_event (e : OutputEndpointImpl) (ev : OutputEvent) : Except String (List Nat) :=
  match e with
  | .midi ep => ep.send_event ev

end OutputEndpointImpl

/-- `src/output/system.rs`: `OutputSystem` — registry of endpoints keyed
by endpoint id (a `HashMap`, modelled as an association list). -/
structure OutputSystem where
  endpoints : List (Nat × OutputEndpointImpl)
deriving DecidableEq, Repr

namespace OutputSystem

/-- `OutputSystem::send_event_to_endpoint`. -/
def send_event_to_endpoint (sys : OutputSystem) (id : Nat) (ev : OutputEvent) :
    Except String (List Nat) :=
  match hashGet id sys.endpoints with
  | some ep => ep.send_event ev
  | none => .error "Endpoint not found"

/-- The broadcast filter of `OutputSystem::send_event`: the match arms
send MIDI event kinds to endpoints of `Midi` type and audio-buffer events
to endpoints of `Audio` type; every other combination falls through. -/
def broadcastTo (et : OutputEventType) (ep : OutputEndpointImpl) : Bool :=
  match et with
  | .midiNoteOn _ _ _ | .midiNoteOff _ _ | .midiControlChange _ _ _
  | .midiProgramChange _ _ | .midiPitchBend _ _ | .midiAftertouch _ _
  | .midiPolyAftertouch _ _ _ => ep.endpoint_type = .midi
  | .audioBuffer _ _ _ => ep.endpoint_type = .audio
  | _ => false

/-- `OutputSystem::send_event`: a targeted event goes only to its target;
otherwise one send is attempted per compatible registered endpoint,
connected or not, in registry order. -/
def send_event (sys : OutputSystem) (ev : OutputEvent) :
    List (Except String (List Nat)) :=
  match ev.target with
  | some target => [sys.send_event_to_endpoint target ev]
  | none =>
      sys.endpoints.foldl
        (fun results e =>
          if broadcastTo ev.event_type e.2 then results ++ [e.2.send_event ev]
          else results)
        []

end OutputSystem

/-- The beat-pulse block of the playback loop
(`src/engine/playback.rs`, the test tone generator): when the integer
beat number increments between `last_position` and `current_position`,
a note-on at `60 + ((beat as u8) % 12)` velocity 100 followed by a
note-off at the same pitch, else nothing. -/
def beatPulse (tm : TempoMap) (last_position current_position : Nat) :
    List OutputEvent :=
  let beat := tm.position_to_beats current_position
  if ⌊tm.position_to_beats last_position⌋ < ⌊beat⌋ then
    let note := 60 + (ratAsU8 beat % 12)
    [OutputEvent.midi_note_on 0 note 100 none, OutputEvent.midi_note_off 0 note none]
  else []

/-- The playback loop's pulse emissions over a run: the loop starts with
`last_position = zero`, computes each iteration's `current_position` from
wall-clock elapsed time, emits the beat pulse for the window
`(last_position, current_position]`, and advances
`last_position = current_position`.  `positions` is the sequence of
sampled current positions. -/
def playbackPulses (tm : TempoMap) (positions : List Nat) : List OutputEvent :=
  (positions.foldl
    (fun st p => (st.1 ++ beatPulse tm st.2 p, p))
    (([] : List OutputEvent), 0)).1

/-! ### Generic lemmas about the map models -/

theorem hashGet_hashInsert {α : Type} (x k : Nat) (v : α) (l : List (Nat × α)) :
    hashGet x (hashInsert k v l) = if x = k then some v else hashGet x l := by
  induction l with
  | nil => simp [hashInsert, hashGet]
  | cons hd tl ih =>
      obtain ⟨k2, v2⟩ := hd
      by_cases hk : k = k2
      · subst hk
        simp only [hashInsert, if_pos rfl, hashGet]
        by_cases hx : x = k <;> simp [hashGet, hx]
      · simp only [hashInsert, if_neg hk]
        by_cases hx : x = k2
        · subst hx
          simp [hashGet, Ne.symm hk]
        · simp [hashGet, hx, ih]

theorem mem_hashInsert {α : Type} (e : Nat × α) (k : Nat) (v : α) (l : List (Nat × α)) :
    e ∈ hashInsert k v l → e = (k, v) ∨ e ∈ l := by
  induction l with
  | nil => simp [hashInsert]
  | cons hd tl ih =>
      obtain ⟨k2, v2⟩ := hd
      by_cases hk : k = k2
      · subst hk
        simp only [hashInsert, if_true, List.mem_cons, reduceIte]
        tauto
      · simp only [hashInsert, if_neg hk, List.mem_cons]
        intro h
        rcases h with h | h
        · tauto
        · rcases ih h with h2 | h2 <;> tauto

theorem mem_btreeInsert {α : Type} (e : Nat × α) (k : Nat) (v : α) (l : List (Nat × α)) :
    e ∈ btreeInsert k v l → e = (k, v) ∨ e ∈ l := by
  induction l with
  | nil => simp [btreeInsert]
  | cons hd tl ih =>
      obtain ⟨k2, v2⟩ := hd
      simp only [btreeInsert]
      by_cases h1 : k < k2
      · simp only [if_pos h1, List.mem_cons]
        tauto
      · by_cases h2 : k = k2
        · simp only [if_neg h1, if_pos h2, List.mem_cons]
          tauto
        · simp only [if_neg h1, if_neg h2, List.mem_cons]
          intro h
          rcases h with h | h
          · tauto
          · rcases ih h with h3 | h3 <;> tauto

theorem self_mem_btreeInsert {α : Type} (k : Nat) (v : α) (l : List (Nat × α)) :
    (k, v) ∈ btreeInsert k v l := by
  induction l with
  | nil => simp [btreeInsert]
  | cons hd tl ih =>
      obtain ⟨k2, v2⟩ := hd
      simp only [btreeInsert]
      by_cases h1 : k < k2
      · simp [if_pos h1]
      · by_cases h2 : k = k2
        · simp [if_neg h1, if_pos h2]
        · simp only [if_neg h1, if_neg h2, List.mem_cons]
          exact Or.inr ih

theorem mem_btreeRemove {α : Type} (e : Nat × α) (k : Nat) (l : List (Nat × α)) :
    e ∈ btreeRemove k l → e ∈ l ∧ e.1 ≠ k := by
  intro h
  simp only [btreeRemove, List.mem_filter, decide_eq_true_eq] at h
  exact h

/-! ### C8: TimePosition arithmetic -/

/-- C8 counterexample: the claim says `a + b` never wraps modulo `2 ^ 64`,
but at `a = b = 2 ^ 63` the source's `u64` addition yields
`(2 ^ 63 + 2 ^ 63) mod 2 ^ 64 = 0`, not the tick sum `2 ^ 64`. -/
theorem c8_add_wraps_counterexample :
    (TimePosition.add ⟨2 ^ 63⟩ ⟨2 ^ 63⟩).position_ticks ≠ 2 ^ 63 + 2 ^ 63 := by
  norm_num [TimePosition.add, U64MOD]

/-- C8 (amended): subtraction saturates at zero — it is exact when no
underflow occurs and returns zero whenever the subtrahend's ticks are at
least the minuend's, never a negative or wrapped value — while addition is
modular: exact below `2 ^ 64`, and wrapped by exactly `2 ^ 64` when the
tick sum of two in-range operands overflows. -/
theorem c8_sub_saturates_add_wraps (a b : TimePosition) :
    (b.position_ticks ≤ a.position_ticks →
      (a.sub b).position_ticks + b.position_ticks = a.position_ticks) ∧
    (a.position_ticks ≤ b.position_ticks → a.sub b = ⟨0⟩) ∧
    (a.position_ticks + b.position_ticks < U64MOD →
      (a.add b).position_ticks = a.position_ticks + b.position_ticks) ∧
    (U64MOD ≤ a.position_ticks + b.position_ticks →
      a.position_ticks < U64MOD → b.position_ticks < U64MOD →
      (a.add b).position_ticks + U64MOD = a.position_ticks + b.position_ticks) := by
  obtain ⟨a⟩ := a
  obtain ⟨b⟩ := b
  simp only [TimePosition.sub, TimePosition.add, TimePosition.mk.injEq, U64MOD]
  refine ⟨fun h => by omega, fun h => by omega, fun h => by omega, fun h1 h2 h3 => by omega⟩

/-- C8 witness: the four saturation/wrapping facts at concrete operands. -/
theorem c8_witness :
    (TimePosition.sub ⟨5⟩ ⟨3⟩).position_ticks + 3 = 5 ∧
    TimePosition.sub ⟨3⟩ ⟨5⟩ = ⟨0⟩ ∧
    (TimePosition.add ⟨5⟩ ⟨3⟩).position_ticks = 5 + 3 ∧
    (TimePosition.add ⟨2 ^ 63⟩ ⟨2 ^ 63⟩).position_ticks + U64MOD = 2 ^ 63 + 2 ^ 63 :=
  ⟨(c8_sub_saturates_add_wraps ⟨5⟩ ⟨3⟩).1 (by norm_num),
   (c8_sub_saturates_add_wraps ⟨3⟩ ⟨5⟩).2.1 (by norm_num),
   (c8_sub_saturates_add_wraps ⟨5⟩ ⟨3⟩).2.2.1 (by norm_num [U64MOD]),
   (c8_sub_saturates_add_wraps ⟨2 ^ 63⟩ ⟨2 ^ 63⟩).2.2.2 (by norm_num [U64MOD])
     (by norm_num [U64MOD]) (by norm_num [U64MOD])⟩

/-! ### C10: inverted range bounds -/

/-- C10 counterexample: `track_containers_in_range` with inverted bounds
(`start = 5 > 3 = end`) on a timeline that does not contain the queried
track returns an empty result normally — the `if let Some(track_map)`
guard means `BTreeMap::range` (the panicking call) is never reached — so
the claim that every such call panics is false. -/
theorem c10_unknown_track_no_panic :
    (Timeline.new "T").track_containers_in_range 0 5 3 = some [] ∧ (3 : Nat) < 5 := by
  constructor
  · rfl
  · norm_num

/-- C10 (amended): `get_events` panics (models as `none`) exactly when
`start > end`; `track_containers_in_range` panics exactly when `start >
end` **and** the queried track exists in the per-track index (an unknown
track short-circuits to an empty result before the range query); with
`start ≤ end` both return normally. -/
theorem c10_range_panic_conditions :
    (∀ (s : EventScheduler) (a b : Nat), s.get_events a b = none ↔ b < a) ∧
    (∀ (tl : Timeline) (t a b : Nat),
      tl.track_containers_in_range t a b = none ↔
        (b < a ∧ (hashGet t tl.track_containers).isSome = true)) := by
  constructor
  · intro s a b
    simp only [EventScheduler.get_events]
    by_cases h : b < a
    · simp [h]
    · simp [h]
  · intro tl t a b
    simp only [Timeline.track_containers_in_range]
    cases hm : hashGet t tl.track_containers with
    | none => simp
    | some m =>
        by_cases h : b < a
        · simp [h]
        · simp [h]

/-! ### C5: MIDI wire encoding -/

theorem lor_nibble (s : Nat) (hs : s < 16) : ∀ ch < 16,
    Nat.lor (16 * s) (Nat.land ch 15) = 16 * s + ch := by
  revert s
  decide

theorem land_127_eq_mod (n : Nat) : Nat.land n 127 = n % 128 := by
  have h := Nat.and_pow_two_sub_one_eq_mod n 7
  norm_num at h
  exact h

/-- C5: `send_event` encodes every MIDI event kind to exactly the
spec's bytes, with the channel in the low nibble of the status byte:
note-on `[0x90+ch, note, velocity]`, note-off `[0x80+ch, note, 0]`,
control-change `[0xB0+ch, controller, value]`, program-change
`[0xC0+ch, program]`, channel-aftertouch `[0xD0+ch, pressure]`,
poly-aftertouch `[0xA0+ch, note, pressure]`, and pitch-bend
`[0xE0+ch, lsb, msb]` where `lsb + 128·msb` is the 14-bit unsigned value
`raw + 8192`; in particular `midi_note_on(0, 60, 100)` encodes to
`[0x90, 60, 100]` and `midi_pitch_bend(0, 0)` to `[0xE0, 0x00, 0x40]`. -/
theorem c5_midi_encoding :
    (∀ ch < 16, ∀ note velocity : Nat,
      MidiOutputEndpoint.encodeMessage (.midiNoteOn ch note velocity) =
        some [0x90 + ch, note, velocity]) ∧
    (∀ ch < 16, ∀ note : Nat,
      MidiOutputEndpoint.encodeMessage (.midiNoteOff ch note) =
        some [0x80 + ch, note, 0]) ∧
    (∀ ch < 16, ∀ controller value : Nat,
      MidiOutputEndpoint.encodeMessage (.midiControlChange ch controller value) =
        some [0xB0 + ch, controller, value]) ∧
    (∀ ch < 16, ∀ program : Nat,
      MidiOutputEndpoint.encodeMessage (.midiProgramChange ch program) =
        some [0xC0 + ch, program]) ∧
    (∀ ch < 16, ∀ pressure : Nat,
      MidiOutputEndpoint.encodeMessage (.midiAftertouch ch pressure) =
        some [0xD0 + ch, pressure]) ∧
    (∀ ch < 16, ∀ note pressure : Nat,
      MidiOutputEndpoint.encodeMessage (.midiPolyAftertouch ch note pressure) =
        some [0xA0 + ch, note, pressure]) ∧
    (∀ ch < 16, ∀ raw : ℤ, -8192 ≤ raw → raw ≤ 8191 →
      ∃ lsb msb : Nat, lsb < 128 ∧ msb < 128 ∧
        (lsb : ℤ) + 128 * msb = raw + 8192 ∧
        MidiOutputEndpoint.encodeMessage (.midiPitchBend ch raw) =
          some [0xE0 + ch, lsb, msb]) ∧
    MidiOutputEndpoint.encodeMessage
        (OutputEvent.midi_note_on 0 60 100 none).event_type = some [0x90, 60, 100] ∧
    MidiOutputEndpoint.encodeMessage (.midiPitchBend 0 0) = some [0xE0, 0x00, 0x40] := by
  have hnib : ∀ s < 16, ∀ ch < 16, Nat.lor (16 * s) (Nat.land ch 15) = 16 * s + ch :=
    fun s hs => lor_nibble s hs
  refine ⟨?_, ?_, ?_, ?_, ?_, ?_, ?_, by decide, by decide⟩
  · intro ch hch note velocity
    simpa [MidiOutputEndpoint.encodeMessage] using
      congrArg (fun b => some [b, note, velocity]) (hnib 9 (by norm_num) ch hch)
  · intro ch hch note
    simpa [MidiOutputEndpoint.encodeMessage] using
      congrArg (fun b => some [b, note, 0]) (hnib 8 (by norm_num) ch hch)
  · intro ch hch controller value
    simpa [MidiOutputEndpoint.encodeMessage] using
      congrArg (fun b => some [b, controller, value]) (hnib 11 (by norm_num) ch hch)
  · intro ch hch program
    simpa [MidiOutputEndpoint.encodeMessage] using
      congrArg (fun b => some [b, program]) (hnib 12 (by norm_num) ch hch)
  · intro ch hch pressure
    simpa [MidiOutputEndpoint.encodeMessage] using
      congrArg (fun b => some [b, pressure]) (hnib 13 (by norm_num) ch hch)
  · intro ch hch note pressure
    simpa [MidiOutputEndpoint.encodeMessage] using
      congrArg (fun b => some [b, note, pressure]) (hnib 10 (by norm_num) ch hch)
  · intro ch hch raw h1 h2
    have hmod : (raw + 8192).emod 65536 = raw + 8192 :=
      Int.emod_eq_of_lt (by omega) (by omega)
    have hnn : (0 : ℤ) ≤ raw + 8192 := by omega
    set bend := ((raw + 8192).emod 65536).toNat with hbend
    have hbendval : (bend : ℤ) = raw + 8192 := by
      rw [hbend, hmod, Int.toNat_of_nonneg hnn]
    have hbendlt : bend < 16384 := by omega
    refine ⟨Nat.land bend 127, Nat.land (Nat.shiftRight bend 7) 127, ?_, ?_, ?_, ?_⟩
    · rw [land_127_eq_mod]
      exact Nat.mod_lt _ (by norm_num)
    · rw [land_127_eq_mod]
      exact Nat.mod_lt _ (by norm_num)
    · rw [land_127_eq_mod, land_127_eq_mod]
      have hdiv : Nat.shiftRight bend 7 = bend / 128 := by
        simpa using Nat.shiftRight_eq_div_pow bend 7
      rw [hdiv]
      have hlt : bend / 128 < 128 := by omega
      rw [Nat.mod_eq_of_lt hlt]
      have : bend % 128 + 128 * (bend / 128) = bend := Nat.mod_add_div bend 128
      omega
    · simp only [MidiOutputEndpoint.encodeMessage]
      rw [show Nat.lor 0xE0 (Nat.land ch 15) = 0xE0 + ch from hnib 14 (by norm_num) ch hch]

/-- C5 witness: the general encoding equations applied at concrete
channel 3, note 60, velocity 100, and pitch-bend raw value 1000. -/
theorem c5_witness :
    MidiOutputEndpoint.encodeMessage (.midiNoteOn 3 60 100) = some [0x93, 60, 100] ∧
    ∃ lsb msb : Nat, lsb < 128 ∧ msb < 128 ∧
      (lsb : ℤ) + 128 * msb = 1000 + 8192 ∧
      MidiOutputEndpoint.encodeMessage (.midiPitchBend 3 1000) =
        some [0xE0 + 3, lsb, msb] :=
  ⟨c5_midi_encoding.1 3 (by norm_num) 60 100,
   c5_midi_encoding.2.2.2.2.2.2.1 3 (by norm_num) 1000 (by norm_num) (by norm_num)⟩

/-! ### C9: output dispatch -/

/-- The claim's acceptance relation, written from the spec's words: each
MIDI event kind is accepted by Midi-type endpoints, the audio-buffer kind
by Audio-type endpoints, and no other kind by any endpoint. -/
def acceptsSpec (ety : EndpointType) (et : OutputEventType) : Bool :=
  (OutputEvent.is_midi_type et && (ety == .midi)) ||
    (OutputEvent.is_audio_type et && (ety == .audio))

theorem foldl_conditional_sends {α β : Type} (p : α → Bool) (f : α → β) (l : List α)
    (acc : List β) :
    l.foldl (fun rs e => if p e then rs ++ [f e] else rs) acc =
      acc ++ (l.filter p).map f := by
  induction l generalizing acc with
  | nil => simp
  | cons hd tl ih =>
      by_cases hp : p hd
      · simp [List.filter_cons, hp, ih]
      · simp [List.filter_cons, hp, ih]

theorem broadcastTo_eq_acceptsSpec (et : OutputEventType) (ep : OutputEndpointImpl) :
    OutputSystem.broadcastTo et ep = acceptsSpec ep.endpoint_type et := by
  obtain ⟨st⟩ := ep
  cases et <;>
    simp [OutputSystem.broadcastTo, acceptsSpec, OutputEvent.is_midi_type,
      OutputEvent.is_audio_type, OutputEndpointImpl.endpoint_type,
      MidiOutputEndpoint.endpoint_type]

/-- C9: a targeted event is dispatched only to its target endpoint (a
single result), while an untargeted event is dispatched to exactly the
registered endpoints — connected or not, in registry order — whose
declared type accepts the event's category (MIDI kinds to Midi-type
endpoints, audio buffers to Audio-type endpoints, nothing else to
anyone), one result per attempted send. -/
theorem c9_send_event_dispatch (sys : OutputSystem) (ev : OutputEvent) :
    (∀ target, ev.target = some target →
      sys.send_event ev = [sys.send_event_to_endpoint target ev]) ∧
    (ev.target = none →
      sys.send_event ev =
        (sys.endpoints.filter (fun e => acceptsSpec e.2.endpoint_type ev.event_type)).map
          (fun e => e.2.send_event ev)) := by
  constructor
  · intro target ht
    simp [OutputSystem.send_event, ht]
  · intro ht
    simp only [OutputSystem.send_event, ht]
    have hcongr :
        (fun (results : List (Except String (List Nat))) (e : Nat × OutputEndpointImpl) =>
            if OutputSystem.broadcastTo ev.event_type e.2 then results ++ [e.2.send_event ev]
            else results) =
          fun results e =>
            if acceptsSpec e.2.endpoint_type ev.event_type then results ++ [e.2.send_event ev]
            else results := by
      funext results e
      rw [broadcastTo_eq_acceptsSpec]
    rw [hcongr, foldl_conditional_sends (fun e => acceptsSpec e.2.endpoint_type ev.event_type)
      (fun e => e.2.send_event ev) sys.endpoints []]
    simp

/-- C9 witness: dispatch applied to a concrete one-endpoint registry, for
a broadcast note-on (reaches the Midi endpoint) — instantiating the
broadcast branch of the dispatch theorem. -/
theorem c9_witness :
    (OutputSystem.mk [(7, .midi ⟨7, "ep", "port", 0, true⟩)]).send_event
        (OutputEvent.midi_note_on 0 60 100 none) =
      ((OutputSystem.mk [(7, .midi ⟨7, "ep", "port", 0, true⟩)]).endpoints.filter
          (fun e => acceptsSpec e.2.endpoint_type
            (OutputEvent.midi_note_on 0 60 100 none).event_type)).map
        (fun e => e.2.send_event (OutputEvent.midi_note_on 0 60 100 none)) :=
  (c9_send_event_dispatch _ _).2 rfl

/-! ### C2: tempo doubling and beat increments -/

theorem tempo_changes_one_change (rate pbr s : Nat) (b : ℚ) (hs : 0 < s) :
    ((TempoMap.new rate pbr).add_tempo_change s ⟨b⟩).tempo_changes =
      [(0, ⟨120⟩), (s, ⟨b⟩)] := by
  simp [TempoMap.new, TempoMap.add_tempo_change, btreeInsert, hs.ne']

theorem tempo_at_zero_one_change (rate pbr s : Nat) (b : ℚ) (hs : 0 < s) :
    ((TempoMap.new rate pbr).add_tempo_change s ⟨b⟩).tempo_at 0 = ⟨120⟩ := by
  have hch := tempo_changes_one_change rate pbr s b hs
  have hns : ¬ (s ≤ 0) := by omega
  simp [TempoMap.tempo_at, hch, List.filter, hns, hs.ne']

/-- Closed form of `position_to_beats` on a map with a single tempo change
at `s > 0`, for positions at or past the change: beats of the 120-BPM
prefix plus beats of the `b`-BPM suffix. -/
theorem pb_one_change (rate pbr s p : Nat) (b : ℚ) (hs : 0 < s) (hsp : s ≤ p) :
    ((TempoMap.new rate pbr).add_tempo_change s ⟨b⟩).position_to_beats p =
      (s : ℚ) / rate / (60 / 120) + ((p - s : Nat) : ℚ) / rate / (60 / b) := by
  have hch := tempo_changes_one_change rate pbr s b hs
  have hta := tempo_at_zero_one_change rate pbr s b hs
  have hrate : ((TempoMap.new rate pbr).add_tempo_change s ⟨b⟩).reference_sample_rate = rate :=
    rfl
  simp only [TempoMap.position_to_beats, hch, hrate, hta]
  have h0p : (decide ((0 : Nat) ≤ p)) = true := by simp
  have hsp2 : (decide (s ≤ p)) = true := by simp [hsp]
  simp only [List.filter, h0p, hsp2, List.foldl, TempoMap.p2bStep]
  simp only [lt_irrefl, if_false, Nat.sub_zero, Tempo.beat_duration_secs]
  rcases lt_or_eq_of_le hsp with h | h
  · simp only [hs, if_pos, h]
    norm_num
  · subst h
    simp only [lt_irrefl, if_false, hs, if_pos]
    norm_num

/-- C2 counterexample: with one tempo change at tick 50 on a 100 Hz map,
doubling the segment tempo from 120 to 240 BPM makes the beat increment of
`position_to_beats` over the span `[50, 100]` equal to 2 — double, not
half, of the increment 1 that the undoubled 120 BPM map produces over the
same span — so the claimed halving equation is false there. -/
theorem c2_doubling_halves_counterexample :
    ((TempoMap.new 100 100).add_tempo_change 50 ⟨240⟩).position_to_beats 100 -
        ((TempoMap.new 100 100).add_tempo_change 50 ⟨240⟩).position_to_beats 50 = 2 ∧
    ((TempoMap.new 100 100).add_tempo_change 50 ⟨120⟩).position_to_beats 100 -
        ((TempoMap.new 100 100).add_tempo_change 50 ⟨120⟩).position_to_beats 50 = 1 ∧
    ¬ (((TempoMap.new 100 100).add_tempo_change 50 ⟨240⟩).position_to_beats 100 -
          ((TempoMap.new 100 100).add_tempo_change 50 ⟨240⟩).position_to_beats 50 =
        1 / 2 *
          (((TempoMap.new 100 100).add_tempo_change 50 ⟨120⟩).position_to_beats 100 -
            ((TempoMap.new 100 100).add_tempo_change 50 ⟨120⟩).position_to_beats 50)) := by
  rw [pb_one_change 100 100 50 100 240 (by norm_num) (by norm_num),
    pb_one_change 100 100 50 50 240 (by norm_num) (by norm_num),
    pb_one_change 100 100 50 100 120 (by norm_num) (by norm_num),
    pb_one_change 100 100 50 50 120 (by norm_num) (by norm_num)]
  norm_num

/-- C2 (amended): for a tempo map with a tempo change at the start of a
segment, doubling that change's BPM makes the beat increment reported by
`position_to_beats` over any fixed tick span inside the segment **double**
(not half) the increment the undoubled tempo produces over the same span. -/
theorem c2_doubling_doubles_beat_increment (rate pbr s a d : Nat) (b : ℚ)
    (hs : 0 < s) (hsa : s ≤ a) :
    ((TempoMap.new rate pbr).add_tempo_change s ⟨2 * b⟩).position_to_beats (a + d) -
        ((TempoMap.new rate pbr).add_tempo_change s ⟨2 * b⟩).position_to_beats a =
      2 * (((TempoMap.new rate pbr).add_tempo_change s ⟨b⟩).position_to_beats (a + d) -
        ((TempoMap.new rate pbr).add_tempo_change s ⟨b⟩).position_to_beats a) := by
  have hsad : s ≤ a + d := le_trans hsa (Nat.le_add_right a d)
  rw [pb_one_change rate pbr s (a + d) (2 * b) hs hsad,
    pb_one_change rate pbr s a (2 * b) hs hsa,
    pb_one_change rate pbr s (a + d) b hs hsad,
    pb_one_change rate pbr s a b hs hsa]
  have hA : ((a + d - s : Nat) : ℚ) = ((a - s : Nat) : ℚ) + d := by
    rw [Nat.cast_sub hsa, Nat.cast_sub hsad]
    push_cast
    ring
  rw [hA]
  simp only [div_div_eq_mul_div]
  ring

/-- C2 witness: the doubling theorem instantiated at the concrete map of
the counterexample (rate 100, change at tick 50, 120 → 240 BPM, span
`[50, 100]`). -/
theorem c2_witness :
    ((TempoMap.new 100 100).add_tempo_change 50 ⟨2 * 120⟩).position_to_beats (50 + 50) -
        ((TempoMap.new 100 100).add_tempo_change 50 ⟨2 * 120⟩).position_to_beats 50 =
      2 * (((TempoMap.new 100 100).add_tempo_change 50 ⟨120⟩).position_to_beats (50 + 50) -
        ((TempoMap.new 100 100).add_tempo_change 50 ⟨120⟩).position_to_beats 50) :=
  c2_doubling_doubles_beat_increment 100 100 50 50 50 120 (by norm_num) (by norm_num)

/-! ### C1: beats/position round trip -/

/-- C1: on the map built by `new(44100, 44100)` followed by
`add_tempo_change(22050, 240 BPM)` and `add_tempo_change(33075, 120 BPM)`,
the position 55125 maps to exactly 3 beats, but `beats_to_position(3)`
returns 44100 — an error of 11025 ticks (a quarter second), far beyond any
floating-point rounding tolerance, because the loop in
`beats_to_position` compares and subtracts the *cumulative* beat count at
each change position instead of the per-segment beat count.  The
computation here is exact rational arithmetic, so the 11025-tick gap is
intrinsic to the algorithm, not to `f64` rounding. -/
theorem c1_roundtrip_fails_two_changes :
    ((((TempoMap.new 44100 44100).add_tempo_change 22050 ⟨240⟩).add_tempo_change 33075
        ⟨120⟩).position_to_beats 55125 = 3) ∧
    ((((TempoMap.new 44100 44100).add_tempo_change 22050 ⟨240⟩).add_tempo_change 33075
        ⟨120⟩).beats_to_position 3 = 44100) ∧ (44100 : Nat) ≠ 55125 := by
  refine ⟨?_, ?_, by norm_num⟩
  · norm_num [TempoMap.position_to_beats, TempoMap.p2bStep, TempoMap.tempo_at,
      TempoMap.new, TempoMap.add_tempo_change, btreeInsert, Tempo.beat_duration_secs,
      List.filter, List.foldl]
  · norm_num [TempoMap.beats_to_position, TempoMap.b2pLoop, TempoMap.position_to_beats,
      TempoMap.p2bStep, TempoMap.tempo_at, TempoMap.new, TempoMap.add_tempo_change,
      btreeInsert, Tempo.beat_duration_secs, List.filter, List.foldl, ratRoundToU64,
      rustRound, U64MOD]
    decide

/-! ### C4: the playback loop's beat pulse -/

/-- The loop's pulse emissions unrolled: each iteration's pulse for the
window from the previous sampled position, then the rest. -/
def pulseSeq (tm : TempoMap) : Nat → List Nat → List OutputEvent
  | _, [] => []
  | last, p :: rest => beatPulse tm last p ++ pulseSeq tm p rest

theorem playbackPulses_eq_pulseSeq_aux (tm : TempoMap) (ps : List Nat)
    (acc : List OutputEvent) (last : Nat) :
    (ps.foldl (fun st p => (st.1 ++ beatPulse tm st.2 p, p)) (acc, last)).1 =
      acc ++ pulseSeq tm last ps := by
  induction ps generalizing acc last with
  | nil => simp [pulseSeq]
  | cons p rest ih => simp [pulseSeq, List.foldl_cons, ih]

/-- On the default map (120 BPM at 44100 Hz reference rate) a position's
beat count is `ticks / 22050`. -/
theorem pb_default (p : Nat) :
    (TempoMap.new 44100 44100).position_to_beats p = (p : ℚ) / 22050 := by
  simp only [TempoMap.position_to_beats, TempoMap.new, TempoMap.tempo_at]
  have h0p : (decide ((0 : Nat) ≤ p)) = true := by simp
  simp only [List.filter, h0p]
  norm_num [List.foldl, TempoMap.p2bStep, Tempo.beat_duration_secs]
  rcases Nat.eq_zero_or_pos p with h | h
  · simp [h]
  · rw [if_pos h]
    ring

theorem floor_pb_lt (p : Nat) (h : p < 22050) : ⌊(p : ℚ) / 22050⌋ = 0 := by
  rw [Int.floor_eq_zero_iff]
  constructor
  · positivity
  · rw [div_lt_one (by norm_num)]
    exact_mod_cast h

/-- Within the first beat of the default map, the pulse fires exactly on
the iteration whose current position reaches tick 22050 (beat 1.0), and
the emitted pitch is `60 + ((1.0 as u8) % 12) = 61`. -/
theorem beatPulse_default (last cur : Nat) (hl : last ≤ 22050) (hc : cur ≤ 22050) :
    beatPulse (TempoMap.new 44100 44100) last cur =
      if last < 22050 ∧ cur = 22050 then
        [OutputEvent.midi_note_on 0 61 100 none, OutputEvent.midi_note_off 0 61 none]
      else [] := by
  simp only [beatPulse, pb_default]
  rcases Nat.lt_or_ge cur 22050 with hcur | hcur
  · rw [floor_pb_lt cur hcur]
    have hfl : (0 : ℤ) ≤ ⌊(last : ℚ) / 22050⌋ := by positivity
    rw [if_neg (by omega), if_neg (by omega)]
  · have hceq : cur = 22050 := by omega
    subst hceq
    have h1 : ((22050 : Nat) : ℚ) / 22050 = 1 := by norm_num
    rw [h1]
    rcases Nat.lt_or_ge last 22050 with hlast | hlast
    · rw [floor_pb_lt last hlast]
      rw [if_pos (by norm_num), if_pos ⟨hlast, rfl⟩]
      norm_num [ratAsU8]
    · have hleq : last = 22050 := by omega
      subst hleq
      rw [h1, if_neg (by omega), if_neg (by simp)]

theorem pulseSeq_default (ps : List Nat) (last : Nat) (hlast : last ≤ 22050)
    (hsort : (last :: ps).Sorted (· ≤ ·)) (hmax : ∀ p ∈ ps, p ≤ 22050)
    (hfin : ps.getLast? = some 22050) :
    pulseSeq (TempoMap.new 44100 44100) last ps =
      if last < 22050 then
        [OutputEvent.midi_note_on 0 61 100 none, OutputEvent.midi_note_off 0 61 none]
      else [] := by
  induction ps generalizing last with
  | nil => simp at hfin
  | cons p rest ih =>
      have hp22 : p ≤ 22050 := hmax p (List.mem_cons_self _ _)
      have hlp : last ≤ p := (List.sorted_cons.mp hsort).1 p (List.mem_cons_self _ _)
      have hsort2 : (p :: rest).Sorted (· ≤ ·) := (List.sorted_cons.mp hsort).2
      cases rest with
      | nil =>
          have hp : p = 22050 := by simpa [List.getLast?] using hfin
          subst hp
          simp [pulseSeq, beatPulse_default last 22050 hlast (by norm_num)]
      | cons q rest2 =>
          have hfin2 : (q :: rest2).getLast? = some 22050 := by
            simpa [List.getLast?_cons_cons] using hfin
          have hmax2 : ∀ x ∈ q :: rest2, x ≤ 22050 :=
            fun x hx => hmax x (List.mem_cons_of_mem _ hx)
          have ihr := ih p hp22 hsort2 hmax2 hfin2
          have hstep : pulseSeq (TempoMap.new 44100 44100) last (p :: q :: rest2) =
              beatPulse (TempoMap.new 44100 44100) last p ++
                pulseSeq (TempoMap.new 44100 44100) p (q :: rest2) := rfl
          rw [hstep, ihr, beatPulse_default last p hlast hp22]
          rcases Nat.lt_or_ge p 22050 with hp | hp
          · rw [if_neg (by omega), if_pos hp, if_pos (by omega)]
            simp
          · have hpeq : p = 22050 := by omega
            subst hpeq
            rcases Nat.lt_or_ge last 22050 with h | h
            · rw [if_pos (show last < 22050 ∧ (22050 : Nat) = 22050 from ⟨h, rfl⟩),
                if_neg (lt_irrefl 22050), if_pos h]
              simp
            · rw [if_neg (show ¬ (last < 22050 ∧ (22050 : Nat) = 22050) from fun hc =>
                  absurd hc.1 (by omega)),
                if_neg (lt_irrefl 22050), if_neg (by omega)]
              simp

/-- C4 counterexample: in the reference scenario (default 120 BPM 4/4 map
at 44100 Hz, playback from tick 0 reaching tick 22050 = 0.5 s), the single
emitted note-on/note-off pair is at pitch 61 (`60 + (1 % 12)`), not at the
claimed base pitch 60. -/
theorem c4_pitch_60_counterexample :
    playbackPulses (TempoMap.new 44100 44100) [22050] =
      [OutputEvent.midi_note_on 0 61 100 none, OutputEvent.midi_note_off 0 61 none] ∧
    (61 : Nat) ≠ 60 := by
  constructor
  · rw [playbackPulses, playbackPulses_eq_pulseSeq_aux]
    have hstep : pulseSeq (TempoMap.new 44100 44100) 0 [22050] =
        beatPulse (TempoMap.new 44100 44100) 0 22050 ++ [] := rfl
    rw [hstep, beatPulse_default 0 22050 (by norm_num) (by norm_num),
      if_pos (by norm_num)]
    simp
  · norm_num

/-- C4 (amended): in the reference scenario — default map (120 BPM, 4/4,
44100 Hz reference rate), playback from tick 0, any monotone sequence of
sampled loop positions that stays within the 0.5 s window and ends exactly
at tick 22050 (`position_to_beats` = 1.0) — the loop emits exactly one
note-on immediately followed by one note-off, at pitch 61 (base pitch 60
offset by the beat number 1 mod 12). -/
theorem c4_single_pulse_at_pitch_61 (ps : List Nat) (hsort : ps.Sorted (· ≤ ·))
    (hmax : ∀ p ∈ ps, p ≤ 22050) (hfin : ps.getLast? = some 22050) :
    playbackPulses (TempoMap.new 44100 44100) ps =
      [OutputEvent.midi_note_on 0 61 100 none, OutputEvent.midi_note_off 0 61 none] := by
  have h0 : ((0 : Nat) :: ps).Sorted (· ≤ ·) :=
    List.sorted_cons.mpr ⟨fun b _ => Nat.zero_le b, hsort⟩
  have hps := pulseSeq_default ps 0 (by norm_num) h0 hmax hfin
  rw [playbackPulses, playbackPulses_eq_pulseSeq_aux, hps, if_pos (by norm_num)]
  simp

/-- C4 witness: the scenario theorem applied to the concrete two-iteration
trace sampling ticks 11025 then 22050. -/
theorem c4_witness :
    playbackPulses (TempoMap.new 44100 44100) [11025, 22050] =
      [OutputEvent.midi_note_on 0 61 100 none, OutputEvent.midi_note_off 0 61 none] :=
  c4_single_pulse_at_pitch_61 [11025, 22050] (by simp) (by simp) rfl

/-! ### C6: the container/index invariant -/

/-- Direction one of the spec's invariant: every container identity in any
track's per-track index exists in the timeline's container set. -/
def IndexRefsValid (tl : Timeline) : Prop :=
  ∀ e ∈ tl.track_containers, ∀ p ∈ e.2, (hashGet p.2 tl.containers).isSome = true

/-- Direction two of the spec's invariant: every container in the
container set appears in some track's index. -/
def ContainersAllIndexed (tl : Timeline) : Prop :=
  ∀ e ∈ tl.containers, ∃ tm ∈ tl.track_containers, ∃ p ∈ tm.2, p.2 = e.1

/-- The full two-directional invariant of the claim. -/
def ContainersIndexBijective (tl : Timeline) : Prop :=
  IndexRefsValid tl ∧ ContainersAllIndexed tl

instance (tl : Timeline) : Decidable (IndexRefsValid tl) := by
  unfold IndexRefsValid
  infer_instance

instance (tl : Timeline) : Decidable (ContainersAllIndexed tl) := by
  unfold ContainersAllIndexed
  infer_instance

instance (tl : Timeline) : Decidable (ContainersIndexBijective tl) := by
  unfold ContainersIndexBijective
  infer_instance

/-- The three timeline operations of the claim. -/
inductive TimelineOp
  | addTrack (t : Track)
  | addContainer (track_id : Nat) (c : MediaContainer)
  | moveContainer (id : Nat) (new_position : Nat)

/-- Apply one timeline operation. -/
def applyOp : TimelineOp → Timeline → Timeline
  | .addTrack t, tl => tl.add_track t
  | .addContainer tid c, tl => tl.add_container tid c
  | .moveContainer id p, tl => (tl.move_container id p).1

/-- A default-shaped media container at a given id, position and length
(`MediaContainer::new` defaults, content `Pattern`). -/
def mkContainer (id pos len : Nat) : MediaContainer :=
  ⟨id, pos, len, .normal, none, 0, 0, 1, .pattern 0⟩

/-- A default-shaped track with a given id. -/
def mkTrack (id : Nat) : Track :=
  ⟨id, "track", .midi, none, (100, 100, 200), false, false, 100⟩

/-- C6 counterexample: on a timeline with one track and one container at
tick 10, `add_container` of a second container also starting at tick 10
silently overwrites the first container's index entry (the per-track index
is keyed solely by start position), leaving the first container in the
container set but in no track's index — so the operation does not preserve
the two-directional invariant. -/
theorem c6_duplicate_position_breaks_invariant :
    ContainersIndexBijective
      (((Timeline.new "T").add_track (mkTrack 1)).add_container 1 (mkContainer 1 10 5)) ∧
    ¬ ContainersIndexBijective
      ((((Timeline.new "T").add_track (mkTrack 1)).add_container 1
          (mkContainer 1 10 5)).add_container 1 (mkContainer 2 10 5)) :=
  ⟨by decide, by decide⟩

theorem hashGet_mem {α : Type} (k : Nat) (v : α) (l : List (Nat × α)) :
    hashGet k l = some v → (k, v) ∈ l := by
  induction l with
  | nil => simp [hashGet]
  | cons hd tl ih =>
      obtain ⟨k2, v2⟩ := hd
      by_cases hk : k = k2
      · subst hk
        simp only [hashGet, if_true, reduceIte, Option.some.injEq, List.mem_cons]
        rintro rfl
        exact Or.inl rfl
      · simp only [hashGet, if_neg hk, List.mem_cons]
        intro h
        exact Or.inr (ih h)

/-- C6 (amended): every timeline operation (add_track, add_container,
move_container) preserves the forward direction of the invariant — every
container identity in any track's per-track index exists in the container
set.  (The reverse direction is not preserved: see the counterexample,
where an `add_container` at an occupied start position evicts the previous
container's index entry.) -/
theorem c6_ops_preserve_index_refs (op : TimelineOp) (tl : Timeline)
    (h : IndexRefsValid tl) :
    IndexRefsValid (applyOp op tl) := by
  cases op with
  | addTrack t =>
      intro e he p hp
      simp only [applyOp, Timeline.add_track] at he ⊢
      rcases mem_hashInsert _ _ _ _ he with h2 | h2
      · rw [h2] at hp
        simp at hp
      · exact h e h2 p hp
  | addContainer tid c =>
      intro e he p hp
      simp only [applyOp, Timeline.add_container] at he ⊢
      rw [hashGet_hashInsert]
      by_cases hc : p.2 = c.id
      · simp [hc]
      · rw [if_neg hc]
        cases hm : hashGet tid tl.track_containers with
        | none =>
            rw [hm] at he
            exact h e he p hp
        | some m =>
            rw [hm] at he
            rcases mem_hashInsert _ _ _ _ he with h2 | h2
            · rw [h2] at hp
              rcases mem_btreeInsert _ _ _ _ hp with h3 | h3
              · rw [h3] at hc
                simp at hc
              · exact h (tid, m) (hashGet_mem _ _ _ hm) p h3
            · exact h e h2 p hp
  | moveContainer id np =>
      intro e he p hp
      simp only [applyOp, Timeline.move_container] at he ⊢
      cases hf : Timeline.findContainerEntry id tl.track_containers with
      | none =>
          simp only [hf] at he ⊢
          exact h e he p hp
      | some tp =>
          obtain ⟨tid, old_pos⟩ := tp
          simp only [hf] at he ⊢
          cases hc : hashGet id tl.containers with
          | none =>
              simp only [hc] at he ⊢
              exact h e he p hp
          | some c =>
              simp only [hc] at he ⊢
              cases hm : hashGet tid tl.track_containers with
              | none =>
                  simp only [hm] at he ⊢
                  rw [hashGet_hashInsert]
                  by_cases hpc : p.2 = id
                  · simp [hpc]
                  · rw [if_neg hpc]
                    exact h e he p hp
              | some m =>
                  simp only [hm] at he ⊢
                  rw [hashGet_hashInsert]
                  by_cases hpc : p.2 = id
                  · simp [hpc]
                  · rw [if_neg hpc]
                    rcases mem_hashInsert _ _ _ _ he with h2 | h2
                    · rw [h2] at hp
                      rcases mem_btreeInsert _ _ _ _ hp with h3 | h3
                      · rw [h3] at hpc
                        simp at hpc
                      · exact h (tid, m) (hashGet_mem _ _ _ hm) p (mem_btreeRemove _ _ _ h3).1
                    · exact h e h2 p hp

/-- C6 witness: preservation applied to the concrete duplicate-position
`add_container` step of the counterexample timeline. -/
theorem c6_witness :
    IndexRefsValid
      ((((Timeline.new "T").add_track (mkTrack 1)).add_container 1
          (mkContainer 1 10 5)).add_container 1 (mkContainer 2 10 5)) :=
  c6_ops_preserve_index_refs (.addContainer 1 (mkContainer 2 10 5))
    (((Timeline.new "T").add_track (mkTrack 1)).add_container 1 (mkContainer 1 10 5))
    (by decide)

/-! ### C3: range-query semantics -/

/-- C3 counterexample: with `start = end`, a container starting exactly at
`start` is *not* returned (the `[start, end)` part of the query is empty
and the overlap part only looks strictly before `start`), contradicting
the claim's "a container starting exactly at start is always returned". -/
theorem c3_start_eq_end_counterexample :
    (((Timeline.new "T").add_track (mkTrack 1)).add_container 1
        (mkContainer 1 5 3)).track_containers_in_range 1 5 5 = some [] ∧
    (mkContainer 1 5 3).position = 5 := by
  constructor
  · decide
  · rfl

theorem part2_fn_eq_some (cs : List (Nat × MediaContainer)) (s : Nat) (e : Nat × Nat)
    (c : MediaContainer) :
    (match hashGet e.2 cs with
      | some c0 => if s < Timeline.containerEnd c0 then some c0 else none
      | none => none) = some c ↔
      hashGet e.2 cs = some c ∧ s < Timeline.containerEnd c := by
  cases hg : hashGet e.2 cs with
  | none => simp
  | some c0 =>
      by_cases hend : s < Timeline.containerEnd c0
      · simp only [if_pos hend, Option.some.injEq]
        constructor
        · rintro rfl
          exact ⟨rfl, hend⟩
        · rintro ⟨h1, _⟩
          exact h1
      · simp only [if_neg hend]
        constructor
        · intro h
          cases h
        · rintro ⟨h1, h2⟩
          cases h1
          exact absurd h2 hend

/-- C3 (amended): on a consistently indexed track (each index entry's key
is its container's stored position), `track_containers_in_range(track,
start, end)` with `start ≤ end` returns normally, and returns exactly the
indexed containers whose start lies in `[start, end)` plus those starting
strictly before `start` whose computed end (`position + length`, as `u64`)
is strictly greater than `start`; a container starting exactly at `end` is
never returned, and a container starting exactly at `start` is always
returned provided `start < end` (when `start = end` the half-open interval
is empty and such a container is not returned). -/
theorem c3_range_query_characterization (tl : Timeline) (t s f : Nat)
    (m : List (Nat × Nat)) (hm : hashGet t tl.track_containers = some m)
    (hcons : ∀ p ∈ m, (hashGet p.2 tl.containers).map (fun c => c.position) = some p.1)
    (hsf : s ≤ f) :
    ∃ l, tl.track_containers_in_range t s f = some l ∧
      (∀ c : MediaContainer, c ∈ l ↔
        ∃ p ∈ m, hashGet p.2 tl.containers = some c ∧
          ((s ≤ c.position ∧ c.position < f) ∨
            (c.position < s ∧ s < Timeline.containerEnd c))) ∧
      (∀ p ∈ m, ∀ c, hashGet p.2 tl.containers = some c → c.position = s → s < f →
        c ∈ l) ∧
      (∀ c ∈ l, c.position ≠ f) := by
  have hpos : ∀ p ∈ m, ∀ c, hashGet p.2 tl.containers = some c → c.position = p.1 := by
    intro p hp c hc
    have h := hcons p hp
    rw [hc] at h
    simpa using h
  simp only [Timeline.track_containers_in_range, hm, if_neg (Nat.not_lt.mpr hsf)]
  refine ⟨_, rfl, ?_, ?_, ?_⟩
  · intro c
    rw [List.mem_append]
    constructor
    · rintro (h | h)
      · rw [List.mem_filterMap] at h
        obtain ⟨p, hp, hg⟩ := h
        rw [List.mem_filter, decide_eq_true_eq] at hp
        obtain ⟨hpm, hs1, hs2⟩ := hp
        have := hpos p hpm c hg
        exact ⟨p, hpm, hg, Or.inl ⟨this ▸ hs1, this ▸ hs2⟩⟩
      · rw [List.mem_filterMap] at h
        obtain ⟨p, hp, hg⟩ := h
        rw [List.mem_filter, decide_eq_true_eq] at hp
        obtain ⟨hpm, hlt⟩ := hp
        rw [part2_fn_eq_some] at hg
        obtain ⟨hg, hend⟩ := hg
        have := hpos p hpm c hg
        exact ⟨p, hpm, hg, Or.inr ⟨this ▸ hlt, hend⟩⟩
    · rintro ⟨p, hpm, hg, hcond | hcond⟩
      · refine Or.inl (List.mem_filterMap.mpr ⟨p, ?_, hg⟩)
        rw [List.mem_filter, decide_eq_true_eq]
        have := hpos p hpm c hg
        exact ⟨hpm, this ▸ hcond.1, this ▸ hcond.2⟩
      · refine Or.inr (List.mem_filterMap.mpr ⟨p, ?_, ?_⟩)
        · rw [List.mem_filter, decide_eq_true_eq]
          have := hpos p hpm c hg
          exact ⟨hpm, this ▸ hcond.1⟩
        · rw [part2_fn_eq_some]
          exact ⟨hg, hcond.2⟩
  · intro p hp c hg hcp hslt
    refine List.mem_append.mpr (Or.inl (List.mem_filterMap.mpr ⟨p, ?_, hg⟩))
    rw [List.mem_filter, decide_eq_true_eq]
    have := hpos p hp c hg
    refine ⟨hp, ?_, ?_⟩ <;> omega
  · intro c hc
    rw [List.mem_append] at hc
    rcases hc with h | h <;> rw [List.mem_filterMap] at h
    · obtain ⟨p, hp, hg⟩ := h
      rw [List.mem_filter, decide_eq_true_eq] at hp
      have := hpos p hp.1 c hg
      omega
    · obtain ⟨p, hp, hg⟩ := h
      rw [List.mem_filter, decide_eq_true_eq] at hp
      rw [part2_fn_eq_some] at hg
      have := hpos p hp.1 c hg.1
      omega

/-- C3 witness: the characterization applied to a concrete two-container
track (one container inside `[5, 9)`, one overlapping from before). -/
theorem c3_witness :
    ∃ l, (((((Timeline.new "T").add_track (mkTrack 1)).add_container 1
          (mkContainer 1 5 3)).add_container 1
          (mkContainer 2 2 10)).track_containers_in_range 1 5 9 = some l) ∧
      (∀ c : MediaContainer, c ∈ l ↔
        ∃ p ∈ [((2 : Nat), (2 : Nat)), (5, 1)],
          hashGet p.2 ((((Timeline.new "T").add_track (mkTrack 1)).add_container 1
            (mkContainer 1 5 3)).add_container 1 (mkContainer 2 2 10)).containers =
              some c ∧
          ((5 ≤ c.position ∧ c.position < 9) ∨
            (c.position < 5 ∧ 5 < Timeline.containerEnd c))) ∧
      (∀ p ∈ [((2 : Nat), (2 : Nat)), (5, 1)], ∀ c : MediaContainer,
        hashGet p.2 ((((Timeline.new "T").add_track (mkTrack 1)).add_container 1
          (mkContainer 1 5 3)).add_container 1 (mkContainer 2 2 10)).containers =
            some c →
        c.position = 5 → 5 < 9 → c ∈ l) ∧
      (∀ c ∈ l, c.position ≠ 9) :=
  c3_range_query_characterization
    ((((Timeline.new "T").add_track (mkTrack 1)).add_container 1
      (mkContainer 1 5 3)).add_container 1 (mkContainer 2 2 10))
    1 5 9 [(2, 2), (5, 1)] (by decide) (by decide) (by decide)

/-! ### C7: move_container semantics -/

/-- C7 counterexample: moving a length-100 container from tick 100 to tick
50 still leaves it overlapping its old position, so the range query
`[100, 101)` over the old position *does* return the moved container
(via the overlap branch), contradicting the claim that the old-position
query no longer returns it; the move itself succeeded. -/
theorem c7_overlap_counterexample :
    ((((Timeline.new "T").add_track (mkTrack 1)).add_container 1
        (mkContainer 1 100 100)).move_container 1 50).2 = true ∧
    ((((Timeline.new "T").add_track (mkTrack 1)).add_container 1
        (mkContainer 1 100 100)).move_container 1 50).1.track_containers_in_range
      1 100 101 = some [mkContainer 1 50 100] ∧
    (mkContainer 1 50 100).id = 1 := by
  refine ⟨by decide, by decide, rfl⟩

theorem findContainerEntry_none_iff (id : Nat) (l : List (Nat × List (Nat × Nat))) :
    Timeline.findContainerEntry id l = none ↔ ∀ tm ∈ l, ∀ p ∈ tm.2, p.2 ≠ id := by
  induction l with
  | nil => simp [Timeline.findContainerEntry]
  | cons hd tl ih =>
      obtain ⟨tid, m⟩ := hd
      simp only [Timeline.findContainerEntry]
      cases hfind : m.find? (fun e => decide (e.2 = id)) with
      | some e =>
          simp only [List.mem_cons]
          constructor
          · intro h
            cases h
          · intro h
            have he := List.mem_of_find?_eq_some hfind
            have hpe := List.find?_some hfind
            rw [decide_eq_true_eq] at hpe
            exact absurd hpe (h (tid, m) (Or.inl rfl) e he)
      | none =>
          rw [ih]
          constructor
          · intro h tm htm p hp
            rcases List.mem_cons.mp htm with h2 | h2
            · subst h2
              have := List.find?_eq_none.mp hfind p hp
              rw [decide_eq_true_eq] at this
              exact this
            · exact h tm h2 p hp
          · intro h tm htm p hp
            exact h tm (List.mem_cons_of_mem _ htm) p hp

theorem findContainerEntry_some (id : Nat) (l : List (Nat × List (Nat × Nat)))
    (tid old_pos : Nat)
    (h : Timeline.findContainerEntry id l = some (tid, old_pos)) :
    ∃ m, (tid, m) ∈ l ∧ (old_pos, id) ∈ m := by
  induction l with
  | nil => simp [Timeline.findContainerEntry] at h
  | cons hd tl ih =>
      obtain ⟨tid2, m2⟩ := hd
      simp only [Timeline.findContainerEntry] at h
      cases hfind : m2.find? (fun e => decide (e.2 = id)) with
      | some e =>
          rw [hfind] at h
          simp only [Option.some.injEq, Prod.mk.injEq] at h
          obtain ⟨h1, h2⟩ := h
          refine ⟨m2, by simp [h1], ?_⟩
          have he := List.mem_of_find?_eq_some hfind
          have hpe := List.find?_some hfind
          rw [decide_eq_true_eq] at hpe
          have : (old_pos, id) = e := by
            rw [← h2, ← hpe]
          rw [this]
          exact he
      | none =>
          rw [hfind] at h
          obtain ⟨m, hm1, hm2⟩ := ih h
          exact ⟨m, List.mem_cons_of_mem _ hm1, hm2⟩

theorem hashGet_isSome_of_mem {α : Type} (k : Nat) (v : α) (l : List (Nat × α))
    (h : (k, v) ∈ l) : ∃ u, hashGet k l = some u := by
  induction l with
  | nil => simp at h
  | cons hd tl ih =>
      obtain ⟨k2, v2⟩ := hd
      by_cases hk : k = k2
      · exact ⟨v2, by simp [hashGet, hk]⟩
      · rcases List.mem_cons.mp h with h2 | h2
        · cases h2
          exact absurd rfl hk
        · obtain ⟨u, hu⟩ := ih h2
          exact ⟨u, by simp [hashGet, hk, hu]⟩


/-- C7 (amended): on a consistently indexed timeline (each index entry's
key and value are its container's stored position and id),
`move_container(id, new_pos)` returns false exactly when no track's index
holds `id`; when the scan finds `id` at `(track, old_pos)`, it returns
true, updates the stored position to `new_pos`, a range query covering
`new_pos` returns the moved container, and a range query covering only
`old_pos` no longer returns it **provided** the relocated container does
not still overlap `old_pos` (i.e. unless `new_pos < old_pos <
new_pos + length`, in which case the overlap part of the range query
still reports it). -/
theorem c7_move_container_spec (tl : Timeline) (id np : Nat)
    (hcons : ∀ tm ∈ tl.track_containers, ∀ p ∈ tm.2,
      (hashGet p.2 tl.containers).map (fun c => (c.position, c.id)) = some (p.1, p.2)) :
    ((tl.move_container id np).2 = false ↔
      ∀ tm ∈ tl.track_containers, ∀ p ∈ tm.2, p.2 ≠ id) ∧
    (∀ tid old_pos,
      Timeline.findContainerEntry id tl.track_containers = some (tid, old_pos) →
      ∀ c, hashGet id tl.containers = some c →
      (tl.move_container id np).2 = true ∧
      hashGet id (tl.move_container id np).1.containers = some { c with position := np } ∧
      (∃ l, (tl.move_container id np).1.track_containers_in_range tid np (np + 1) = some l ∧
        { c with position := np } ∈ l) ∧
      (np ≠ old_pos →
        ¬ (np < old_pos ∧ old_pos < Timeline.containerEnd { c with position := np }) →
        ∃ l, (tl.move_container id np).1.track_containers_in_range tid old_pos (old_pos + 1)
            = some l ∧ ∀ c2 ∈ l, c2.id ≠ id)) := by
  constructor
  · cases hf : Timeline.findContainerEntry id tl.track_containers with
    | none =>
        simp only [Timeline.move_container, hf]
        simp only [true_iff]
        exact (findContainerEntry_none_iff id tl.track_containers).mp hf
    | some tp =>
        obtain ⟨tid, old_pos⟩ := tp
        obtain ⟨m, hm1, hmem⟩ := findContainerEntry_some id tl.track_containers tid old_pos hf
        have hmap := hcons (tid, m) hm1 (old_pos, id) hmem
        obtain ⟨c, hc⟩ : ∃ c, hashGet id tl.containers = some c := by
          cases hg : hashGet id tl.containers with
          | none => rw [hg] at hmap; simp at hmap
          | some c => exact ⟨c, rfl⟩
        obtain ⟨m2, hm2⟩ := hashGet_isSome_of_mem tid m tl.track_containers hm1
        simp only [Timeline.move_container, hf, hc, hm2]
        constructor
        · intro h
          cases h
        · intro h
          exact absurd rfl (h (tid, m) hm1 (old_pos, id) hmem)
  · intro tid old_pos hf c hc
    obtain ⟨m, hm1, hmem⟩ := findContainerEntry_some id tl.track_containers tid old_pos hf
    obtain ⟨m2, hm2⟩ := hashGet_isSome_of_mem tid m tl.track_containers hm1
    have hcpos : c.position = old_pos ∧ c.id = id := by
      have := hcons (tid, m) hm1 (old_pos, id) hmem
      rw [hc] at this
      simp only [Option.map_some', Option.some.injEq, Prod.mk.injEq] at this
      exact this
    simp only [Timeline.move_container, hf, hc, hm2]
    refine ⟨by trivial, ?_, ?_, ?_⟩
    · rw [hashGet_hashInsert]
      simp
    · simp only [Timeline.track_containers_in_range]
      rw [hashGet_hashInsert]
      simp only [if_true, reduceIte]
      rw [if_neg (by omega)]
      refine ⟨_, rfl, ?_⟩
      refine List.mem_append.mpr (Or.inl (List.mem_filterMap.mpr ⟨(np, id), ?_, ?_⟩))
      · rw [List.mem_filter, decide_eq_true_eq]
        exact ⟨self_mem_btreeInsert np id (btreeRemove old_pos m2), le_refl np, by omega⟩
      · rw [hashGet_hashInsert]
        simp
    · intro hne hnov
      simp only [Timeline.track_containers_in_range]
      rw [hashGet_hashInsert]
      simp only [if_true, reduceIte]
      rw [if_neg (by omega)]
      refine ⟨_, rfl, ?_⟩
      intro c2 hc2
      rcases List.mem_append.mp hc2 with h | h
      · rw [List.mem_filterMap] at h
        obtain ⟨p, hp, hg⟩ := h
        rw [List.mem_filter, decide_eq_true_eq] at hp
        obtain ⟨hpm, hge, hlt⟩ := hp
        have hp1 : p.1 = old_pos := by omega
        rcases mem_btreeInsert p np id _ hpm with h2 | h2
        · rw [h2] at hp1
          exact absurd hp1 hne
        · exact absurd hp1 (mem_btreeRemove p old_pos m2 h2).2
      · rw [List.mem_filterMap] at h
        obtain ⟨p, hp, hg⟩ := h
        rw [List.mem_filter, decide_eq_true_eq] at hp
        obtain ⟨hpm, hlt⟩ := hp
        rw [part2_fn_eq_some] at hg
        obtain ⟨hg, hend⟩ := hg
        rcases mem_btreeInsert p np id _ hpm with h2 | h2
        · rw [h2] at hg hlt
          rw [hashGet_hashInsert] at hg
          simp only [if_true, reduceIte, Option.some.injEq] at hg
          subst hg
          exact absurd ⟨hlt, hend⟩ hnov
        · obtain ⟨hpm2, hpne⟩ := mem_btreeRemove p old_pos m2 h2
          by_cases hpid : p.2 = id
          · exfalso
            have := hcons (tid, m2) (hashGet_mem tid m2 tl.track_containers hm2) p hpm2
            rw [hpid, hc] at this
            simp only [Option.map_some', Option.some.injEq, Prod.mk.injEq] at this
            have hq1 := this.1
            have hq2 := hcpos.1
            omega
          · rw [hashGet_hashInsert, if_neg hpid] at hg
            have := hcons (tid, m2) (hashGet_mem tid m2 tl.track_containers hm2) p hpm2
            rw [hg] at this
            simp only [Option.map_some', Option.some.injEq, Prod.mk.injEq] at this
            rw [this.2]
            exact hpid

/-- C7 witness: the move specification applied to the concrete timeline
with one container at tick 100 moved to the non-overlapping tick 300. -/
theorem c7_witness :
    ((((Timeline.new "T").add_track (mkTrack 1)).add_container 1
        (mkContainer 1 100 100)).move_container 1 300).2 = true ∧
    hashGet 1 ((((Timeline.new "T").add_track (mkTrack 1)).add_container 1
        (mkContainer 1 100 100)).move_container 1 300).1.containers =
      some (mkContainer 1 300 100) ∧
    (∃ l, ((((Timeline.new "T").add_track (mkTrack 1)).add_container 1
        (mkContainer 1 100 100)).move_container 1 300).1.track_containers_in_range
          1 300 301 = some l ∧ mkContainer 1 300 100 ∈ l) ∧
    (∃ l, ((((Timeline.new "T").add_track (mkTrack 1)).add_container 1
        (mkContainer 1 100 100)).move_container 1 300).1.track_containers_in_range
          1 100 101 = some l ∧ ∀ c2 ∈ l, c2.id ≠ 1) := by
  have h := (c7_move_container_spec
    (((Timeline.new "T").add_track (mkTrack 1)).add_container 1 (mkContainer 1 100 100))
    1 300 (by decide)).2 1 100 (by decide) (mkContainer 1 100 100) (by decide)
  exact ⟨h.1, h.2.1, h.2.2.1, h.2.2.2 (by decide) (by decide)⟩

end Loom
